import Mathlib

/-!
Shallow embedding of the powderkeg chunked cellular-automaton engine
(src/area.rs, src/chunk.rs, src/grid.rs, src/simulation.rs).

Machine integers (`i32` / `IVec2`) are modelled by `Int`; the references used
by the Rust code are modelled by explicit state passing.  The scheduler's
`f32` accumulator is modelled by `ℚ` (the scenario values in play are exact).
Bevy math primitives (`IVec2`, `IRect`) the code relies on are embedded from
`bevy_math`'s definitions, since their semantics (notably the min/max collapse
in `IRect::intersect`) are part of the program's behaviour.
-/

/-- Bevy `IVec2`: a 2-D integer vector. -/
structure IVec2 where
  x : Int
  y : Int
deriving DecidableEq, Repr

namespace IVec2

/-- Componentwise addition (`IVec2: Add`). -/
def add (a b : IVec2) : IVec2 := ⟨a.x + b.x, a.y + b.y⟩

/-- Componentwise subtraction (`IVec2: Sub`). -/
def sub (a b : IVec2) : IVec2 := ⟨a.x - b.x, a.y - b.y⟩

/-- Scalar multiplication `k * v` (`i32 * IVec2`). -/
def smul (k : Int) (a : IVec2) : IVec2 := ⟨k * a.x, k * a.y⟩

/-- Componentwise minimum (`IVec2::min`). -/
def vmin (a b : IVec2) : IVec2 := ⟨min a.x b.x, min a.y b.y⟩

/-- Componentwise maximum (`IVec2::max`). -/
def vmax (a b : IVec2) : IVec2 := ⟨max a.x b.x, max a.y b.y⟩

/-- `IVec2::splat`. -/
def splat (k : Int) : IVec2 := ⟨k, k⟩

/-- Componentwise Euclidean division (`IVec2::div_euclid`); Rust's
`i32::div_euclid` is `Int.ediv`, which is `/` on `Int`. -/
def divEuclid (a b : IVec2) : IVec2 := ⟨a.x / b.x, a.y / b.y⟩

/-- Componentwise Euclidean remainder (`IVec2::rem_euclid`). -/
def remEuclid (a b : IVec2) : IVec2 := ⟨a.x % b.x, a.y % b.y⟩

end IVec2

/-- Bevy `IRect`: an axis-aligned integer rectangle given by two corners. -/
structure IRect where
  min : IVec2
  max : IVec2
deriving DecidableEq, Repr

namespace IRect

/-- Bevy `IRect::from_corners`. -/
def from_corners (p0 p1 : IVec2) : IRect := ⟨p0.vmin p1, p0.vmax p1⟩

/-- Bevy `IRect::contains` (both corners inclusive):
`(point.cmpge(self.min) & point.cmple(self.max)).all()`. -/
def containsB (r : IRect) (p : IVec2) : Bool :=
  decide (r.min.x ≤ p.x) && decide (p.x ≤ r.max.x) &&
  decide (r.min.y ≤ p.y) && decide (p.y ≤ r.max.y)

/-- Bevy `IRect::union`: bounding box of the two rectangles. -/
def union (a b : IRect) : IRect := ⟨a.min.vmin b.min, a.max.vmax b.max⟩

/-- Bevy `IRect::union_point`: grow the rectangle to contain a point. -/
def union_point (a : IRect) (p : IVec2) : IRect := ⟨a.min.vmin p, a.max.vmax p⟩

/-- Bevy `IRect::intersect`, including its final collapse
`r.min = r.min.min(r.max)` that forces `min ≤ max`. -/
def intersect (a b : IRect) : IRect :=
  let mn := a.min.vmax b.min
  let mx := a.max.vmin b.max
  ⟨mn.vmin mx, mx⟩

/-- Bevy `IRect::is_empty`: `(self.min.cmpge(self.max)).any()`. -/
def isEmptyB (r : IRect) : Bool :=
  decide (r.max.x ≤ r.min.x) || decide (r.max.y ≤ r.min.y)

end IRect

/-- `translate_rect` from src/simulation.rs. -/
def translate_rect (rect : IRect) (offset : IVec2) : IRect :=
  ⟨rect.min.add offset, rect.max.add offset⟩

/-- `rect_contains_inclusive` from src/simulation.rs (same predicate as
bevy's `IRect::contains`). -/
def rect_contains_inclusive (rect : IRect) (point : IVec2) : Bool :=
  decide (rect.min.x ≤ point.x) && decide (point.x ≤ rect.max.x) &&
  decide (rect.min.y ≤ point.y) && decide (point.y ≤ rect.max.y)

/-- The list `[a, a+1, …, b]` of integers (the Rust inclusive range `a..=b`). -/
def intRange (a b : Int) : List Int :=
  (List.range (b + 1 - a).toNat).map (fun i => a + (i : Int))

/-- The points of a rectangle in the order `apply` and `apply_randomly`
enumerate them: `y` outer, `x` inner
(`(min.y..=max.y).cartesian_product(min.x..=max.x)` mapped `(y,x) ↦ (x,y)`). -/
def rectPoints (r : IRect) : List IVec2 :=
  (intRange r.min.y r.max.y).flatMap (fun y =>
    (intRange r.min.x r.max.x).map (fun x => IVec2.mk x y))

/-- `Area` from src/area.rs: a dirty region as zero, one or many rectangles.
The Rust variant `Area::Area` is named `Single` here (Lean rejects a
constructor that duplicates its own namespace). -/
inductive Area where
  | Empty : Area
  | Single : IRect → Area
  | Many : List IRect → Area
deriving DecidableEq, Repr

namespace Area

/-- `Area::is_empty`. -/
def is_empty : Area → Bool
  | .Empty => true
  | _ => false

/-- `Area::translate` (Rust mutates in place; modelled functionally). -/
def translate (a : Area) (offset : IVec2) : Area :=
  match a with
  | .Empty => .Empty
  | .Single r => .Single (translate_rect r offset)
  | .Many rs => .Many (rs.map (fun r => translate_rect r offset))

/-- `Area::contains`: some constituent rectangle contains the point
(inclusive comparisons, written out in src/area.rs). -/
def contains (a : Area) (point : IVec2) : Bool :=
  match a with
  | .Empty => false
  | .Single r =>
      decide (r.min.x ≤ point.x) && decide (point.x ≤ r.max.x) &&
      decide (r.min.y ≤ point.y) && decide (point.y ≤ r.max.y)
  | .Many rs => rs.any (fun r =>
      decide (r.min.x ≤ point.x) && decide (point.x ≤ r.max.x) &&
      decide (r.min.y ≤ point.y) && decide (point.y ≤ r.max.y))

/-- The list `choices` built by `Area::apply_randomly` before shuffling. -/
def choices (a : Area) : List IVec2 :=
  match a with
  | .Empty => []
  | .Single r => rectPoints r
  | .Many rs => rs.flatMap rectPoints

/-- The sequence of points `Area::apply` visits (row-major per rectangle,
rectangles in list order). -/
def applyList (a : Area) : List IVec2 :=
  match a with
  | .Empty => []
  | .Single r => rectPoints r
  | .Many rs => rs.flatMap rectPoints

/-- The sequence of points `Area::apply_randomly` visits, with the shuffle
performed by `SliceRandom::shuffle(rng)` abstracted as a function on lists
(its contract: it permutes its input). -/
def apply_randomly (shuffle : List IVec2 → List IVec2) (a : Area) : List IVec2 :=
  shuffle a.choices

/-- `Area::from_areas`: concatenate constituent rectangles, dropping `Empty`
inputs; `Empty` when nothing remains, else `Many`. -/
def from_areas (stains : List Area) : Area :=
  let final_stains := stains.foldl (fun acc s =>
    match s with
    | .Single r => acc ++ [r]
    | .Many rs => acc ++ rs
    | .Empty => acc) []
  if final_stains.length = 0 then .Empty else .Many final_stains

/-- `From<IRect> for Area` (no emptiness check). -/
def ofRect (r : IRect) : Area := .Single r

/-- `From<Option<IRect>> for Area`. -/
def ofOption : Option IRect → Area
  | some r => .Single r
  | none => .Empty

end Area

/-- Decidable equality for `Except`, used to evaluate embedded fallible
operations on concrete inputs. -/
instance instDecEqExcept {ε α : Type} [DecidableEq ε] [DecidableEq α] :
    DecidableEq (Except ε α) := fun a b =>
  match a, b with
  | .ok a, .ok b =>
    if h : a = b then isTrue (by rw [h]) else isFalse (by simp [h])
  | .ok _, .error _ => isFalse (by simp)
  | .error _, .ok _ => isFalse (by simp)
  | .error e, .error f =>
    if h : e = f then isTrue (by rw [h]) else isFalse (by simp [h])

/-- `PowderkegError` from src/lib.rs, parametrized by the cell error type. -/
inductive PowderkegError (E : Type) where
  | Cell : E → PowderkegError E
  | LocalOutOfBounds : IVec2 → PowderkegError E
  | ChunkOutOfBounds : IVec2 → PowderkegError E
  | SwapOutOfBounds : IVec2 → IVec2 → PowderkegError E
deriving DecidableEq, Repr

/-- `Chunk<T, N>` from src/chunk.rs: a dense row-major cell array plus the
optional dirty rectangle (the Rust field `stain`, here `stainOpt` since the
`Stainable::stain` method needs the plain name).  The auxiliary `Arc<RwLock<T::State>>` field is
omitted: none of the operations embedded here read or write it.  The cell
type's associated `Error` type appears as a parameter of the operations. -/
structure Chunk (α : Type) (N : Int) where
  data : List α
  stainOpt : Option IRect
deriving DecidableEq, Repr

namespace Chunk

/-- `Chunk::area`: the rectangle `[0, N-1] × [0, N-1]` (inclusive corners). -/
def area (N : Int) : IRect := ⟨⟨0, 0⟩, ⟨N - 1, N - 1⟩⟩

/-- `Chunk::volume`: `N as usize * N as usize` (we only instantiate `N > 0`,
where `as usize` is `Int.toNat`). -/
def volume (N : Int) : Nat := N.toNat * N.toNat

/-- `Chunk::index` (src/chunk.rs 77-85): bounds check against `area`, then
the row-major index `N * y + x` (nonnegative for in-bounds points). -/
def index (N : Int) (point : IVec2) : Option Nat :=
  if (area N).containsB point then some (N * point.y + point.x).toNat else none

/-- `Default for Chunk` (src/chunk.rs 106-114) with default cell value `d`:
`Chunk::new` fills `data` with `volume` default cells and sets the initial
stain to the full chunk area. -/
def default (N : Int) (d : α) : Chunk α N :=
  ⟨List.replicate (volume N) d, some (area N)⟩

/-- `Chunk::get` (src/chunk.rs 122-126).  The second error branch stands for
the `expect` panic on a data array shorter than `N²`, which is unreachable
when `data.length = volume N`. -/
def get (c : Chunk α N) (point : IVec2) : Except (PowderkegError E) α :=
  match index N point with
  | none => .error (.LocalOutOfBounds point)
  | some i =>
    match c.data.get? i with
    | some v => .ok v
    | none => .error (.LocalOutOfBounds point)

/-- `Grid::at` (src/grid.rs 29-31) on a chunk (`at` is reserved in Lean):
panics (modelled as `none`) unless `get` succeeds. -/
def atPoint (c : Chunk α N) (point : IVec2) : Option α :=
  (get (E := Unit) c point).toOption

/-- `Chunk::stain` (src/chunk.rs 176-181): union into the dirty rectangle. -/
def stain (c : Chunk α N) (r : IRect) : Chunk α N :=
  match c.stainOpt with
  | some s => { c with stainOpt := some (s.union r) }
  | none => { c with stainOpt := some r }

/-- `Chunk::stain_point` (src/chunk.rs 183-188). -/
def stain_point (c : Chunk α N) (point : IVec2) : Chunk α N :=
  match c.stainOpt with
  | some s => { c with stainOpt := some (s.union_point point) }
  | none => { c with stainOpt := some (IRect.from_corners point point) }

/-- `Chunk::clear_stain` (src/chunk.rs 172-174). -/
def clear_stain (c : Chunk α N) : Chunk α N := { c with stainOpt := none }

/-- `Chunk::stained` (src/chunk.rs 165-170): the dirty rectangle intersected
with the chunk area (bevy `intersect`, collapse included), as an `Area`. -/
def stained (c : Chunk α N) : Area :=
  match c.stainOpt with
  | some s => Area.ofRect (s.intersect (area N))
  | none => .Empty

/-- `Chunk::covers` (src/chunk.rs 156-158). -/
def covers (N : Int) : Area := Area.ofRect (area N)

/-- `Vec::swap` on the model's list data: defined when both indices are in
range (Rust panics otherwise; all call sites use validated indices on
full-length data). -/
def listSwap (l : List α) (i j : Nat) : List α :=
  match l.get? i, l.get? j with
  | some a, some b => (l.set i b).set j a
  | _, _ => l

/-- `Chunk::swap` (src/chunk.rs 136-146), state-passing: both indices are
validated first (`?` early-returns leaving the chunk untouched), then both
points are stained, then the data entries are exchanged. -/
def swap (c : Chunk α N) (first second : IVec2) :
    Chunk α N × Option (PowderkegError E) :=
  match index N first with
  | none => (c, some (.LocalOutOfBounds first))
  | some i =>
    match index N second with
    | none => (c, some (.LocalOutOfBounds second))
    | some j =>
      let c1 := (c.stain_point first).stain_point second
      ({ c1 with data := listSwap c1.data i j }, none)

/-- `Chunk::get_mut` (src/chunk.rs 128-134): validates, stains the point, and
hands back mutable access to the cell, modelled as the stained chunk plus the
cell's index.  The `expect` on the data read is the caller's concern and is
unreachable when `data.length = volume N`. -/
def get_mut (c : Chunk α N) (point : IVec2) :
    Chunk α N × Except (PowderkegError E) Nat :=
  match index N point with
  | none => (c, .error (.LocalOutOfBounds point))
  | some i => (c.stain_point point, .ok i)

/-- `Grid::replace` (src/grid.rs 17-19) on a chunk: `get_mut` then overwrite,
returning the previous value. -/
def replace (c : Chunk α N) (point : IVec2) (v : α) :
    Chunk α N × Except (PowderkegError E) α :=
  match get_mut (E := E) c point with
  | (c1, .ok i) =>
    match c1.data.get? i with
    | some old => ({ c1 with data := c1.data.set i v }, .ok old)
    | none => (c1, .error (.LocalOutOfBounds point))
  | (c1, .error e) => (c1, .error e)

end Chunk

namespace ChunkCoords

/-- `ChunkCoords::offset` (src/chunk.rs 20-22): `N * coords`. -/
def offset (N : Int) (coords : IVec2) : IVec2 := IVec2.smul N coords

/-- `ChunkCoords::local_to_world` (src/chunk.rs 24-26). -/
def local_to_world (N : Int) (coords localPoint : IVec2) : IVec2 :=
  (offset N coords).add localPoint

/-- `ChunkCoords::world_to_local` (src/chunk.rs 28-30). -/
def world_to_local (N : Int) (coords world : IVec2) : IVec2 :=
  world.sub (offset N coords)

/-- `ChunkCoords::world_to_chunk_and_local` (src/chunk.rs 32-34):
componentwise Euclidean div/mod by `N`. -/
def world_to_chunk_and_local (N : Int) (world : IVec2) : IVec2 × IVec2 :=
  (world.divEuclid (IVec2.splat N), world.remEuclid (IVec2.splat N))

end ChunkCoords

/-- `WorldGrid` (src/simulation.rs 41-46): the transient view over the
exclusively borrowed chunks.  The `HashMap<IVec2, &mut Chunk>` is modelled as
an association list with unique-key discipline: lookup takes the first
matching entry and updates rewrite the first matching entry. -/
structure WorldGrid (α : Type) (N : Int) where
  chunks : List (IVec2 × Chunk α N)
deriving DecidableEq, Repr

/-- First-match update of an association list (the model of writing through
`HashMap::get_mut`). -/
def updateAssoc (key : IVec2) (f : Chunk α N → Chunk α N) :
    List (IVec2 × Chunk α N) → List (IVec2 × Chunk α N)
  | [] => []
  | kv :: rest =>
    if kv.1 = key then (kv.1, f kv.2) :: rest else kv :: updateAssoc key f rest

namespace WorldGrid

/-- `HashMap::get` on the chunk map. -/
def findChunk (w : WorldGrid α N) (key : IVec2) : Option (Chunk α N) :=
  (w.chunks.find? (fun kv => kv.1 = key)).map Prod.snd

/-- Rewrite the chunk stored under `key` (no-op when absent). -/
def updateChunk (w : WorldGrid α N) (key : IVec2) (f : Chunk α N → Chunk α N) :
    WorldGrid α N :=
  ⟨updateAssoc key f w.chunks⟩

/-- `WorldGrid::get` (src/simulation.rs 54-58): world → (chunk, local), then
the chunk's local `get`; `ChunkOutOfBounds` when that chunk is not held. -/
def get (w : WorldGrid α N) (point : IVec2) : Except (PowderkegError E) α :=
  let cl := ChunkCoords.world_to_chunk_and_local N point
  match w.findChunk cl.1 with
  | none => .error (.ChunkOutOfBounds cl.1)
  | some ch => ch.get cl.2

/-- `Grid::at` on the `WorldGrid` (`at` is reserved in Lean): panics
(modelled as `none`) unless `get` succeeds. -/
def atPoint (w : WorldGrid α N) (point : IVec2) : Option α :=
  (get (E := Unit) w point).toOption

/-- `WorldGrid::swap` (src/simulation.rs 66-87).  Same chunk: delegate to the
chunk's local swap.  Different chunks: `get_many_mut` both (failing with
`SwapOutOfBounds{first_chunk, second_chunk}` if either is missing), stain
both endpoints, then `mem::swap` the two cells via `get_mut` (which stains
again).  The unreachable `Vec` read panic (data shorter than `N²`) leaves the
data untouched. -/
def swap (w : WorldGrid α N) (first second : IVec2) :
    WorldGrid α N × Option (PowderkegError E) :=
  let fcl := ChunkCoords.world_to_chunk_and_local N first
  let scl := ChunkCoords.world_to_chunk_and_local N second
  if fcl.1 = scl.1 then
    match w.findChunk fcl.1 with
    | none => (w, some (.ChunkOutOfBounds fcl.1))
    | some ch =>
      let r := Chunk.swap (E := E) ch fcl.2 scl.2
      (w.updateChunk fcl.1 (fun _ => r.1), r.2)
  else
    match w.findChunk fcl.1, w.findChunk scl.1 with
    | some ca, some cb =>
      let ca1 := ca.stain_point fcl.2
      let cb1 := cb.stain_point scl.2
      match Chunk.get_mut (E := E) ca1 fcl.2 with
      | (ca2, .error e) =>
        ((w.updateChunk fcl.1 (fun _ => ca2)).updateChunk scl.1 (fun _ => cb1),
          some e)
      | (ca2, .ok i) =>
        match Chunk.get_mut (E := E) cb1 scl.2 with
        | (cb2, .error e) =>
          ((w.updateChunk fcl.1 (fun _ => ca2)).updateChunk scl.1 (fun _ => cb2),
            some e)
        | (cb2, .ok j) =>
          match ca2.data.get? i, cb2.data.get? j with
          | some va, some vb =>
            ((w.updateChunk fcl.1
                (fun _ => { ca2 with data := ca2.data.set i vb })).updateChunk
              scl.1 (fun _ => { cb2 with data := cb2.data.set j va }), none)
          | _, _ =>
            ((w.updateChunk fcl.1 (fun _ => ca2)).updateChunk scl.1
              (fun _ => cb2), none)
    | _, _ =>
      (w, some (.SwapOutOfBounds fcl.1 scl.1))

/-- `WorldGrid::covers` (src/simulation.rs 98-110): union over the held
chunks of each chunk's covered area translated into world coordinates. -/
def covers (w : WorldGrid α N) : Area :=
  Area.from_areas (w.chunks.map (fun kv =>
    (Chunk.covers N).translate (IVec2.smul N kv.1)))

/-- `WorldGrid::stain` (src/simulation.rs 123-137): find the chunk range the
rectangle spans, and stain each held chunk with the rectangle translated into
its local coordinates. -/
def stain (w : WorldGrid α N) (area : IRect) : WorldGrid α N :=
  let minChunk := (ChunkCoords.world_to_chunk_and_local N area.min).1
  let maxChunk := (ChunkCoords.world_to_chunk_and_local N area.max).1
  (intRange minChunk.x maxChunk.x).foldl (fun w cx =>
    (intRange minChunk.y maxChunk.y).foldl (fun w cy =>
      let cc := IVec2.mk cx cy
      w.updateChunk cc (fun ch =>
        ch.stain (translate_rect area (IVec2.smul (-N) cc)))) w) w

/-- `WorldGrid::stain_point` (src/simulation.rs 139-145). -/
def stain_point (w : WorldGrid α N) (point : IVec2) : WorldGrid α N :=
  let cl := ChunkCoords.world_to_chunk_and_local N point
  w.updateChunk cl.1 (fun ch => ch.stain_point cl.2)

end WorldGrid

/-- `TickSuccess` from src/cell.rs. -/
inductive TickSuccess where
  | Stable : TickSuccess
  | Unstable : TickSuccess
deriving DecidableEq, Repr

/-- The cell contract (src/cell.rs `Cell`): `range`, and `tick` as a state
transformer over a grid view.  Rust's single generic
`tick<G: Stainable>(input)` is embedded at the two instantiations the
scheduler uses: the chunk-local view of the parallel phase and the
`WorldGrid` view of the serial phase. -/
structure TickSpec (α E : Type) (N : Int) where
  range : α → IRect
  tickChunk : IVec2 → Chunk α N →
    Except (PowderkegError E) TickSuccess × Chunk α N
  tickWorld : IVec2 → WorldGrid α N →
    Except (PowderkegError E) TickSuccess × WorldGrid α N

/-- The per-chunk state threaded through the parallel-phase closure
(src/simulation.rs 183-209): the evolving chunk plus what was sent on the
deferred-point and error channels. -/
structure ParState (α E : Type) (N : Int) where
  chunk : Chunk α N
  deferred : List IVec2
  errors : List (IVec2 × PowderkegError E)
deriving Repr

/-- One point of the parallel phase (the closure at src/simulation.rs
183-209).  `none` models a panic of `chunk.at(point)`.  If the cell's
translated `range` has both corners inside the chunk area, `tick` runs
against the chunk-local view: `Unstable` re-stains the point, an error is
sent with the world coordinate; otherwise the world point is sent to the
deferred channel. -/
def processPoint (ts : TickSpec α E N) (coords : IVec2) (st : ParState α E N)
    (point : IVec2) : Option (ParState α E N) :=
  match Chunk.get (E := E) st.chunk point with
  | .error _ => none
  | .ok cell =>
    let range := translate_rect (ts.range cell) point
    if (Chunk.area N).containsB range.min
        && (Chunk.area N).containsB range.max then
      let r := ts.tickChunk point st.chunk
      match r.1 with
      | .ok .Unstable => some { st with chunk := r.2.stain_point point }
      | .ok .Stable => some { st with chunk := r.2 }
      | .error e =>
        some ⟨r.2, st.deferred,
          st.errors ++ [(ChunkCoords.local_to_world N coords point, e)]⟩
    else
      some { st with deferred :=
        st.deferred ++ [ChunkCoords.local_to_world N coords point] }

/-- The result of one chunk's parallel-phase task. -/
structure ParOut (α E : Type) (N : Int) where
  chunk : Chunk α N
  deferred : List IVec2
  errors : List (IVec2 × PowderkegError E)
  boundary : List IRect
deriving Repr

/-- One chunk's parallel-phase task (src/simulation.rs 174-218): read and
clear the stain, visit its points in the shuffled order, then send the
world-translated stain to the boundary channel if it leaks past the chunk
area. -/
def parallelChunk (ts : TickSpec α E N) (shuffle : List IVec2 → List IVec2)
    (coords : IVec2) (chunk : Chunk α N) : Option (ParOut α E N) :=
  let stain0 := chunk.stained
  let c0 := chunk.clear_stain
  match List.foldlM (processPoint ts coords) (ParState.mk c0 [] [])
      (stain0.apply_randomly shuffle) with
  | none => none
  | some st =>
    let boundary :=
      match st.chunk.stainOpt with
      | some s =>
        if !(rect_contains_inclusive (Chunk.area N) s.min
            && rect_contains_inclusive (Chunk.area N) s.max) then
          [translate_rect s (IVec2.smul N coords)]
        else []
      | none => []
    some ⟨st.chunk, st.deferred, st.errors, boundary⟩

/-- `area_contains` from src/simulation.rs 280-290: every integer point of
the rectangle is contained in the area. -/
def area_contains (rect : IRect) (a : Area) : Bool :=
  (intRange rect.min.x rect.max.x).all (fun x =>
    (intRange rect.min.y rect.max.y).all (fun y => a.contains ⟨x, y⟩))

/-- One deferred point of the serial phase (src/simulation.rs 243-266).
`none` models a panic of `world_grid.at(point)`.  If the translated range is
not fully covered by the pre-computed `world_covers`, the point is skipped
silently; otherwise `tick` runs against the `WorldGrid` view, re-staining on
`Unstable` and logging errors. -/
def processDeferred (ts : TickSpec α E N) (covers : Area)
    (acc : WorldGrid α N × List (IVec2 × PowderkegError E)) (point : IVec2) :
    Option (WorldGrid α N × List (IVec2 × PowderkegError E)) :=
  match WorldGrid.get (E := E) acc.1 point with
  | .error _ => none
  | .ok cell =>
    let range := translate_rect (ts.range cell) point
    if area_contains range covers then
      let r := ts.tickWorld point acc.1
      match r.1 with
      | .ok .Unstable => some (r.2.stain_point point, acc.2)
      | .ok .Stable => some (r.2, acc.2)
      | .error e => some (r.2, acc.2 ++ [(point, e)])
    else
      some acc

/-- The result of one discrete simulation step: the final world and the
logged `(world point, error)` pairs (parallel-phase errors first, then
serial-phase errors in deferred-point order). -/
structure StepOut (α E : Type) (N : Int) where
  world : WorldGrid α N
  errors : List (IVec2 × PowderkegError E)

/-- One discrete simulation step (src/simulation.rs 170-266): run the
parallel phase over every loaded chunk (its internal shuffles supplied per
chunk coordinate), drain the boundary-stain channel into the rebuilt
`WorldGrid`, compute `world_covers` once, then drain the deferred-point
channel.  `none` models a panic. -/
def discreteStep (ts : TickSpec α E N)
    (shuffle : IVec2 → List IVec2 → List IVec2)
    (world : List (IVec2 × Chunk α N)) : Option (StepOut α E N) := do
  let outs ← world.mapM (fun kv =>
    (parallelChunk ts (shuffle kv.1) kv.1 kv.2).map (fun o => (kv.1, o)))
  let w1 : WorldGrid α N := ⟨outs.map (fun co => (co.1, co.2.chunk))⟩
  let deferred := outs.flatMap (fun co => co.2.deferred)
  let parErrors := outs.flatMap (fun co => co.2.errors)
  let stains := outs.flatMap (fun co => co.2.boundary)
  let w2 := stains.foldl WorldGrid.stain w1
  let covers := w2.covers
  let fin ← List.foldlM (processDeferred ts covers) (w2, []) deferred
  some ⟨fin.1, parErrors ++ fin.2⟩

/-- One frame of `simulate_powderkeg`'s tick accumulation (src/simulation.rs
167-169 and 268): add `tick_rate * delta_seconds` to the `ticks` local; when
the result is ≥ 1, run one discrete step (the returned flag) and set the
accumulator to `clamp(ticks - 1, 0, 1)`.  The `f32` arithmetic is modelled
exactly over `ℚ`. -/
def frameAcc (rate dt acc : ℚ) : Bool × ℚ :=
  let acc1 := acc + rate * dt
  if acc1 ≥ 1 then (true, min (max (acc1 - 1) 0) 1) else (false, acc1)

/-- Iterate `frameAcc` over `n` frames, counting how many discrete steps
ran. -/
def runFrames (rate dt : ℚ) : Nat → ℚ → Nat × ℚ
  | 0, acc => (0, acc)
  | n + 1, acc =>
    let r := frameAcc rate dt acc
    let rest := runFrames rate dt n r.2
    ((if r.1 then 1 else 0) + rest.1, rest.2)

/-- A concrete cell behaviour for instantiating the scheduler theorems:
`range` extends one cell up, `tick` always returns `Stable` leaving the grid
untouched. -/
def upSpec : TickSpec Int Unit 4 :=
  ⟨fun _ => ⟨⟨0, 0⟩, ⟨0, 1⟩⟩, fun _ c => (.ok .Stable, c),
   fun _ w => (.ok .Stable, w)⟩

/-- C8: for all rectangles `r1`, `r2` and every point `pt`,
`Area::from_areas([r1.into(), r2.into()]).contains(pt)` holds exactly when
`r1` contains `pt` (bevy inclusive containment) or `r2` contains `pt`. -/
theorem c8_from_areas_contains (r1 r2 : IRect) (pt : IVec2) :
    (Area.from_areas [Area.ofRect r1, Area.ofRect r2]).contains pt
      = (r1.containsB pt || r2.containsB pt) := by
  have h : Area.from_areas [Area.ofRect r1, Area.ofRect r2] = .Many [r1, r2] := rfl
  rw [h]
  simp [Area.contains, IRect.containsB, Bool.or_assoc, Bool.and_assoc]

/-- C9: `apply_randomly` visits the same multiset of points as `apply`, for
any shuffle satisfying the contract of `SliceRandom::shuffle` (it permutes
its input); only the visitation order differs. -/
theorem c9_apply_randomly_same_multiset (shuffle : List IVec2 → List IVec2)
    (hs : ∀ l, (shuffle l).Perm l) (a : Area) :
    ((a.apply_randomly shuffle : List IVec2) : Multiset IVec2)
      = (a.applyList : Multiset IVec2) := by
  have hc : a.choices = a.applyList := by cases a <;> rfl
  unfold Area.apply_randomly
  rw [← hc]
  exact Multiset.coe_eq_coe.mpr (hs a.choices)

/-- C9 witness: the theorem applied to the reversing shuffle on a concrete
2×3 area. -/
theorem c9_witness :
    (((Area.Single ⟨⟨0, 0⟩, ⟨2, 1⟩⟩).apply_randomly List.reverse : List IVec2) :
        Multiset IVec2)
      = ((Area.Single ⟨⟨0, 0⟩, ⟨2, 1⟩⟩).applyList : Multiset IVec2) :=
  c9_apply_randomly_same_multiset List.reverse (fun l => l.reverse_perm)
    (Area.Single ⟨⟨0, 0⟩, ⟨2, 1⟩⟩)

/-- C7: on a freshly constructed default chunk of size `N`, `get p` returns
the default cell value exactly when `p ∈ [0,N)×[0,N)`, and fails with
`LocalOutOfBounds p` otherwise. -/
theorem c7_default_chunk_get (α E : Type) (N : Int) (d : α) (p : IVec2) :
    ((0 ≤ p.x ∧ p.x < N ∧ 0 ≤ p.y ∧ p.y < N) →
      Chunk.get (E := E) (Chunk.default N d) p = .ok d) ∧
    (¬(0 ≤ p.x ∧ p.x < N ∧ 0 ≤ p.y ∧ p.y < N) →
      Chunk.get (E := E) (Chunk.default N d) p = .error (.LocalOutOfBounds p)) := by
  constructor
  · rintro ⟨hx0, hxN, hy0, hyN⟩
    have hN0 : 0 ≤ N := by omega
    obtain ⟨n, rfl⟩ := Int.eq_ofNat_of_zero_le hN0
    have hb : (Chunk.area n).containsB p = true := by
      simp [Chunk.area, IRect.containsB]
      omega
    have hval : ((n : Int) * p.y + p.x).toNat < Chunk.volume n := by
      have h1 : (n : Int) * p.y + p.x < n * n := by nlinarith
      have h2 : 0 ≤ (n : Int) * p.y + p.x := by nlinarith
      have h3 : Chunk.volume (n : Int) = n * n := by
        simp [Chunk.volume]
      omega
    simp [Chunk.get, Chunk.index, hb, Chunk.default, List.get?_eq_getElem?,
      List.getElem?_replicate, hval]
  · intro h
    have hb : (Chunk.area N).containsB p = false := by
      simp [Chunk.area, IRect.containsB]
      omega
    simp [Chunk.get, Chunk.index, hb]

/-- C7 witness: the theorem applied on a 4×4 chunk at an inside and an
outside point. -/
theorem c7_witness :
    (Chunk.get (E := Unit) (Chunk.default 4 (37 : Int)) ⟨1, 2⟩ = .ok 37) ∧
    (Chunk.get (E := Unit) (Chunk.default 4 (37 : Int)) ⟨4, 0⟩
      = .error (.LocalOutOfBounds ⟨4, 0⟩)) :=
  ⟨(c7_default_chunk_get Int Unit 4 37 ⟨1, 2⟩).1 (by norm_num),
   (c7_default_chunk_get Int Unit 4 37 ⟨4, 0⟩).2 (by norm_num)⟩

/-- C10: if `Chunk::swap` returns an error, the chunk (cell array and stain)
is exactly unchanged — both indices are validated before any staining or
mutation happens. -/
theorem c10_swap_error_leaves_chunk_unchanged (α E : Type) (N : Int)
    (c : Chunk α N) (a b : IVec2) (e : PowderkegError E)
    (h : (Chunk.swap (E := E) c a b).2 = some e) :
    (Chunk.swap (E := E) c a b).1 = c := by
  unfold Chunk.swap at h ⊢
  cases ha : Chunk.index N a <;> cases hb : Chunk.index N b <;>
    simp [ha, hb] at h ⊢

/-- C10 witness: a failed swap (second point out of bounds) on a concrete
2×2 chunk returns it untouched. -/
theorem c10_witness :
    (Chunk.swap (E := Unit) (Chunk.default (α := Int) 2 0) ⟨0, 0⟩ ⟨2, 0⟩).1
      = Chunk.default (α := Int) 2 0 :=
  c10_swap_error_leaves_chunk_unchanged Int Unit 2
    (Chunk.default (α := Int) 2 0) ⟨0, 0⟩ ⟨2, 0⟩
    (.LocalOutOfBounds ⟨2, 0⟩) (by decide)

/-- C4 counterexample: after the public calls `clear_stain()` then
`stain({min:(-5,-5), max:(-3,-3)})` on a default 4×4 chunk, `stained()`
contains the point `(-3,-3)`, which lies outside the chunk bounds `[0,4)²`
— bevy's collapsing `IRect::intersect` turns a disjoint stain into its
clipped corner instead of an empty region. -/
theorem c4_counterexample :
    ((((Chunk.default (α := Int) 4 0).clear_stain).stain
        ⟨⟨-5, -5⟩, ⟨-3, -3⟩⟩).stained.contains ⟨-3, -3⟩ = true)
    ∧ ¬(0 ≤ (IVec2.mk (-3) (-3)).x ∧ (IVec2.mk (-3) (-3)).x < 4
        ∧ 0 ≤ (IVec2.mk (-3) (-3)).y ∧ (IVec2.mk (-3) (-3)).y < 4) := by
  decide

/-- C4 amended: every point of `stained()` lies within the chunk bounds
`[0,N)×[0,N)` provided the accumulated dirty rectangle's max corner is
componentwise nonnegative (true whenever at least the last stain touched
the chunk at or above its origin; violated only by a stain entirely
below/left of the chunk, as in the counterexample). -/
theorem c4_stained_within_bounds (α : Type) (N : Int) (c : Chunk α N)
    (hN : 1 ≤ N)
    (hmax : ∀ r, c.stainOpt = some r → 0 ≤ r.max.x ∧ 0 ≤ r.max.y)
    (p : IVec2) (hp : c.stained.contains p = true) :
    0 ≤ p.x ∧ p.x < N ∧ 0 ≤ p.y ∧ p.y < N := by
  cases hc : c.stainOpt with
  | none => simp [Chunk.stained, hc, Area.contains] at hp
  | some r =>
    obtain ⟨h1, h2⟩ := hmax r hc
    simp [Chunk.stained, hc, Area.ofRect, Area.contains, IRect.intersect,
      IVec2.vmax, IVec2.vmin, Chunk.area] at hp
    omega

/-- C4 amended witness: the theorem applied to a concrete 4×4 chunk stained
at its full area, at the point (2,3). -/
theorem c4_witness :
    0 ≤ (IVec2.mk 2 3).x ∧ (IVec2.mk 2 3).x < 4
      ∧ 0 ≤ (IVec2.mk 2 3).y ∧ (IVec2.mk 2 3).y < 4 :=
  c4_stained_within_bounds Int 4 (Chunk.default 4 0) (by norm_num)
    (by intro r hr
        simp [Chunk.default, Chunk.area] at hr
        subst hr
        norm_num)
    ⟨2, 3⟩ (by decide)

theorem Chunk.stain_point_data (c : Chunk α N) (p : IVec2) :
    (c.stain_point p).data = c.data := by
  unfold Chunk.stain_point
  cases c.stainOpt <;> rfl

theorem Chunk.stain_point_stainOpt_of_update (c : Chunk α N) (d : List α) :
    ({ c with data := d } : Chunk α N).stainOpt = c.stainOpt := rfl

theorem Chunk.index_bounds (N : Int) (p : IVec2) (i : Nat)
    (h : Chunk.index N p = some i) :
    0 ≤ p.x ∧ p.x ≤ N - 1 ∧ 0 ≤ p.y ∧ p.y ≤ N - 1 := by
  unfold Chunk.index at h
  by_cases hb : (Chunk.area N).containsB p
  · simp [Chunk.area, IRect.containsB] at hb
    omega
  · simp [hb] at h

theorem Chunk.get_ok (c : Chunk α N) (p : IVec2) (v : α)
    (h : Chunk.get (E := E) c p = .ok v) :
    ∃ i, Chunk.index N p = some i ∧ c.data.get? i = some v := by
  unfold Chunk.get at h
  cases hi : Chunk.index N p with
  | none => rw [hi] at h; simp at h
  | some i =>
    rw [hi] at h
    cases hd : c.data.get? i with
    | none =>
      rw [List.get?_eq_getElem?] at hd
      simp [hd] at h
    | some u =>
      rw [List.get?_eq_getElem?] at hd
      simp [hd] at h
      exact ⟨i, rfl, by rw [List.get?_eq_getElem?, hd, h]⟩

theorem Chunk.stain_point_mem (c : Chunk α N) (p : IVec2) :
    ∃ s, (c.stain_point p).stainOpt = some s ∧
      s.min.x ≤ p.x ∧ p.x ≤ s.max.x ∧ s.min.y ≤ p.y ∧ p.y ≤ s.max.y := by
  unfold Chunk.stain_point
  cases c.stainOpt with
  | none =>
    refine ⟨_, rfl, ?_, ?_, ?_, ?_⟩ <;>
      simp [IRect.from_corners, IVec2.vmin, IVec2.vmax]
  | some s =>
    refine ⟨_, rfl, ?_, ?_, ?_, ?_⟩ <;>
      simp [IRect.union_point, IVec2.vmin, IVec2.vmax]

theorem Chunk.stain_point_mem_mono (c : Chunk α N) (q : IVec2) (s : IRect)
    (p : IVec2) (h : c.stainOpt = some s)
    (hm : s.min.x ≤ p.x ∧ p.x ≤ s.max.x ∧ s.min.y ≤ p.y ∧ p.y ≤ s.max.y) :
    ∃ s', (c.stain_point q).stainOpt = some s' ∧
      s'.min.x ≤ p.x ∧ p.x ≤ s'.max.x ∧ s'.min.y ≤ p.y ∧ p.y ≤ s'.max.y := by
  unfold Chunk.stain_point
  rw [h]
  refine ⟨_, rfl, ?_, ?_, ?_, ?_⟩ <;>
    simp [IRect.union_point, IVec2.vmin, IVec2.vmax] <;> omega

theorem Chunk.stained_contains_of_mem (c : Chunk α N) (s : IRect) (p : IVec2)
    (hs : c.stainOpt = some s)
    (hm : s.min.x ≤ p.x ∧ p.x ≤ s.max.x ∧ s.min.y ≤ p.y ∧ p.y ≤ s.max.y)
    (hb : 0 ≤ p.x ∧ p.x ≤ N - 1 ∧ 0 ≤ p.y ∧ p.y ≤ N - 1) :
    c.stained.contains p = true := by
  simp [Chunk.stained, hs, Area.ofRect, Area.contains, IRect.intersect,
    IVec2.vmax, IVec2.vmin, Chunk.area]
  omega

theorem listSwap_get_left (l : List α) (i j : Nat) (va vb : α)
    (hi : l.get? i = some va) (hj : l.get? j = some vb) :
    (Chunk.listSwap l i j).get? i = some vb := by
  obtain ⟨hlt, -⟩ := List.get?_eq_some.mp hi
  unfold Chunk.listSwap
  rw [hi, hj]
  by_cases h : i = j
  · subst h
    have hv : va = vb := by rw [hi] at hj; exact Option.some.injEq _ _ ▸ hj ▸ rfl
    subst hv
    rw [List.get?_set_eq_of_lt _ (by simpa using hlt)]
  · rw [List.get?_set_ne _ _ (fun hji => h hji.symm),
      List.get?_set_eq_of_lt _ hlt]

theorem listSwap_get_right (l : List α) (i j : Nat) (va vb : α)
    (hi : l.get? i = some va) (hj : l.get? j = some vb) :
    (Chunk.listSwap l i j).get? j = some va := by
  obtain ⟨hlt, -⟩ := List.get?_eq_some.mp hj
  unfold Chunk.listSwap
  rw [hi, hj]
  rw [List.get?_set_eq_of_lt _ (by simpa using hlt)]

theorem findAssoc_update_self (key : IVec2) (f : Chunk α N → Chunk α N)
    (l : List (IVec2 × Chunk α N)) :
    ((updateAssoc key f l).find? (fun kv => kv.1 = key)).map Prod.snd
      = ((l.find? (fun kv => kv.1 = key)).map Prod.snd).map f := by
  induction l with
  | nil => rfl
  | cons kv rest ih =>
    by_cases h : kv.1 = key
    · simp [updateAssoc, h, List.find?]
    · simp [updateAssoc, h, List.find?, ih]

theorem findAssoc_update_ne (key k2 : IVec2) (h : k2 ≠ key)
    (f : Chunk α N → Chunk α N) (l : List (IVec2 × Chunk α N)) :
    ((updateAssoc key f l).find? (fun kv => kv.1 = k2)).map Prod.snd
      = (l.find? (fun kv => kv.1 = k2)).map Prod.snd := by
  induction l with
  | nil => rfl
  | cons kv rest ih =>
    by_cases hk : kv.1 = key
    · have hk2 : ¬(kv.1 = k2) := by rw [hk]; exact fun he => h he.symm
      have hke : ¬(key = k2) := fun he => h he.symm
      simp [updateAssoc, hk, hk2, hke, List.find?, ih]
    · by_cases hk2 : kv.1 = k2
      · simp [updateAssoc, hk, hk2, h, List.find?]
      · simp [updateAssoc, hk, hk2, List.find?, ih]

theorem WorldGrid.findChunk_update_self (w : WorldGrid α N) (k : IVec2)
    (f : Chunk α N → Chunk α N) :
    (w.updateChunk k f).findChunk k = (w.findChunk k).map f :=
  findAssoc_update_self k f w.chunks

theorem WorldGrid.findChunk_update_ne (w : WorldGrid α N) (k k2 : IVec2)
    (h : k2 ≠ k) (f : Chunk α N → Chunk α N) :
    (w.updateChunk k f).findChunk k2 = w.findChunk k2 :=
  findAssoc_update_ne k k2 h f w.chunks

theorem Chunk.swap_spec (c : Chunk α N) (p q : IVec2) (vp vq : α)
    (hp : Chunk.get (E := E) c p = .ok vp)
    (hq : Chunk.get (E := E) c q = .ok vq) :
    (Chunk.swap (E := E) c p q).2 = none ∧
    Chunk.get (E := E) (Chunk.swap (E := E) c p q).1 p = .ok vq ∧
    Chunk.get (E := E) (Chunk.swap (E := E) c p q).1 q = .ok vp ∧
    (Chunk.swap (E := E) c p q).1.stained.contains p = true ∧
    (Chunk.swap (E := E) c p q).1.stained.contains q = true := by
  obtain ⟨i, hi, hdi⟩ := Chunk.get_ok c p vp hp
  obtain ⟨j, hj, hdj⟩ := Chunk.get_ok c q vq hq
  have hbp := Chunk.index_bounds N p i hi
  have hbq := Chunk.index_bounds N q j hj
  have hswap : Chunk.swap (E := E) c p q
      = ({ (c.stain_point p).stain_point q with
            data := Chunk.listSwap c.data i j }, none) := by
    simp [Chunk.swap, hi, hj, Chunk.stain_point_data]
  rw [hswap]
  obtain ⟨s1, hs1, hm1⟩ := Chunk.stain_point_mem c p
  obtain ⟨s2, hs2, hm2⟩ := Chunk.stain_point_mem_mono (c.stain_point p) q s1 p hs1 hm1
  obtain ⟨s2x, hs2x, hm2x⟩ := Chunk.stain_point_mem (c.stain_point p) q
  have hs2eq : s2x = s2 := by rw [hs2x] at hs2; exact (Option.some.injEq _ _ ▸ hs2 ▸ rfl)
  refine ⟨rfl, ?_, ?_, ?_, ?_⟩
  · have hL := listSwap_get_left c.data i j vp vq hdi hdj
    rw [List.get?_eq_getElem?] at hL
    simp [Chunk.get, hi, hL]
  · have hR := listSwap_get_right c.data i j vp vq hdi hdj
    rw [List.get?_eq_getElem?] at hR
    simp [Chunk.get, hj, hR]
  · exact Chunk.stained_contains_of_mem _ s2 p hs2 hm2 hbp
  · exact Chunk.stained_contains_of_mem _ s2 q (hs2eq ▸ hs2x) (hs2eq ▸ hm2x) hbq

theorem WorldGrid.get_eq (w : WorldGrid α N) (p : IVec2) :
    WorldGrid.get (E := E) w p
      = match w.findChunk (ChunkCoords.world_to_chunk_and_local N p).1 with
        | none =>
          .error (.ChunkOutOfBounds (ChunkCoords.world_to_chunk_and_local N p).1)
        | some ch =>
          Chunk.get (E := E) ch (ChunkCoords.world_to_chunk_and_local N p).2 := rfl

theorem WorldGrid.get_ok_chunk (w : WorldGrid α N) (p : IVec2) (v : α)
    (h : WorldGrid.get (E := E) w p = .ok v) :
    ∃ ch, w.findChunk (ChunkCoords.world_to_chunk_and_local N p).1 = some ch ∧
      Chunk.get (E := E) ch (ChunkCoords.world_to_chunk_and_local N p).2 = .ok v := by
  rw [WorldGrid.get_eq] at h
  cases hf : w.findChunk (ChunkCoords.world_to_chunk_and_local N p).1 with
  | none => rw [hf] at h; simp at h
  | some ch => rw [hf] at h; exact ⟨ch, rfl, h⟩

/-- C5: `WorldGrid::swap` with both containing chunks held exchanges the two
cell values and stains both endpoints in their respective chunks, identically
whether the points share a chunk or not; when the points resolve to two
different chunks and either is absent from the held set, it fails with
`SwapOutOfBounds{first_chunk, second_chunk}` and leaves the world unchanged. -/
theorem c5_world_grid_swap (α E : Type) (N : Int) (w : WorldGrid α N)
    (a b fc fl sc sl : IVec2) (va vb : α)
    (hacl : ChunkCoords.world_to_chunk_and_local N a = (fc, fl))
    (hbcl : ChunkCoords.world_to_chunk_and_local N b = (sc, sl)) :
    (WorldGrid.get (E := E) w a = .ok va →
     WorldGrid.get (E := E) w b = .ok vb →
      (WorldGrid.swap (E := E) w a b).2 = none ∧
      WorldGrid.get (E := E) (WorldGrid.swap (E := E) w a b).1 a = .ok vb ∧
      WorldGrid.get (E := E) (WorldGrid.swap (E := E) w a b).1 b = .ok va ∧
      (∃ ch, (WorldGrid.swap (E := E) w a b).1.findChunk fc = some ch ∧
        ch.stained.contains fl = true) ∧
      (∃ ch, (WorldGrid.swap (E := E) w a b).1.findChunk sc = some ch ∧
        ch.stained.contains sl = true)) ∧
    (fc ≠ sc → (w.findChunk fc = none ∨ w.findChunk sc = none) →
      WorldGrid.swap (E := E) w a b = (w, some (.SwapOutOfBounds fc sc))) := by
  have hfc : (ChunkCoords.world_to_chunk_and_local N a).1 = fc := by rw [hacl]
  have hfl : (ChunkCoords.world_to_chunk_and_local N a).2 = fl := by rw [hacl]
  have hsc : (ChunkCoords.world_to_chunk_and_local N b).1 = sc := by rw [hbcl]
  have hsl : (ChunkCoords.world_to_chunk_and_local N b).2 = sl := by rw [hbcl]
  constructor
  · intro ha hb
    obtain ⟨ca, hfa, hga⟩ := WorldGrid.get_ok_chunk w a va ha
    obtain ⟨cb, hfb, hgb⟩ := WorldGrid.get_ok_chunk w b vb hb
    rw [hfc] at hfa
    rw [hfl] at hga
    rw [hsc] at hfb
    rw [hsl] at hgb
    by_cases hc : fc = sc
    · -- both points resolve to the same chunk: delegate to Chunk::swap
      subst hc
      have hcab : ca = cb := by rw [hfa] at hfb; exact Option.some_inj.mp hfb
      subst hcab
      obtain ⟨h2none, h2p, h2q, h2sp, h2sq⟩ :=
        Chunk.swap_spec (E := E) ca fl sl va vb hga hgb
      have hsw : WorldGrid.swap (E := E) w a b
          = (w.updateChunk fc (fun _ => (Chunk.swap (E := E) ca fl sl).1),
             (Chunk.swap (E := E) ca fl sl).2) := by
        simp [WorldGrid.swap, hfc, hfl, hsc, hsl, hfa]
      rw [hsw]
      have hfind : (w.updateChunk fc
            (fun _ => (Chunk.swap (E := E) ca fl sl).1)).findChunk fc
          = some (Chunk.swap (E := E) ca fl sl).1 := by
        rw [WorldGrid.findChunk_update_self, hfa]; rfl
      refine ⟨h2none, ?_, ?_, ⟨_, hfind, h2sp⟩, ⟨_, hfind, h2sq⟩⟩
      · rw [WorldGrid.get_eq, hfc, hfl, hfind]
        exact h2p
      · rw [WorldGrid.get_eq, hsc, hsl, hfind]
        exact h2q
    · -- the points resolve to two different chunks
      obtain ⟨i, hi, hdi⟩ := Chunk.get_ok ca fl va hga
      obtain ⟨j, hj, hdj⟩ := Chunk.get_ok cb sl vb hgb
      have hbfl := Chunk.index_bounds N fl i hi
      have hbsl := Chunk.index_bounds N sl j hj
      have hilt : i < ca.data.length := (List.get?_eq_some.mp hdi).1
      have hjlt : j < cb.data.length := (List.get?_eq_some.mp hdj).1
      have hsw : WorldGrid.swap (E := E) w a b
          = ((w.updateChunk fc (fun _ =>
                { (ca.stain_point fl).stain_point fl with
                    data := ca.data.set i vb })).updateChunk sc (fun _ =>
                { (cb.stain_point sl).stain_point sl with
                    data := cb.data.set j va }), none) := by
        have hdi2 := hdi
        have hdj2 := hdj
        rw [List.get?_eq_getElem?] at hdi2
        rw [List.get?_eq_getElem?] at hdj2
        simp [WorldGrid.swap, hfc, hfl, hsc, hsl, hc, hfa, hfb, Chunk.get_mut,
          hi, hj, Chunk.stain_point_data, hdi2, hdj2]
      rw [hsw]
      have hfindA : ((w.updateChunk fc (fun _ =>
            { (ca.stain_point fl).stain_point fl with
                data := ca.data.set i vb })).updateChunk sc (fun _ =>
            { (cb.stain_point sl).stain_point sl with
                data := cb.data.set j va })).findChunk fc
          = some ({ (ca.stain_point fl).stain_point fl with
              data := ca.data.set i vb }) := by
        rw [WorldGrid.findChunk_update_ne _ _ _ hc,
          WorldGrid.findChunk_update_self, hfa]
        rfl
      have hfindB : ((w.updateChunk fc (fun _ =>
            { (ca.stain_point fl).stain_point fl with
                data := ca.data.set i vb })).updateChunk sc (fun _ =>
            { (cb.stain_point sl).stain_point sl with
                data := cb.data.set j va })).findChunk sc
          = some ({ (cb.stain_point sl).stain_point sl with
              data := cb.data.set j va }) := by
        rw [WorldGrid.findChunk_update_self,
          WorldGrid.findChunk_update_ne _ _ _ (Ne.symm hc), hfb]
        rfl
      obtain ⟨s1, hs1, hm1⟩ := Chunk.stain_point_mem (ca.stain_point fl) fl
      obtain ⟨t1, ht1, hn1⟩ := Chunk.stain_point_mem (cb.stain_point sl) sl
      refine ⟨rfl, ?_, ?_, ⟨_, hfindA, ?_⟩, ⟨_, hfindB, ?_⟩⟩
      · rw [WorldGrid.get_eq, hfc, hfl, hfindA]
        have hset : (ca.data.set i vb).get? i = some vb :=
          List.get?_set_eq_of_lt vb hilt
        rw [List.get?_eq_getElem?] at hset
        simp [Chunk.get, hi, hset]
      · rw [WorldGrid.get_eq, hsc, hsl, hfindB]
        have hset : (cb.data.set j va).get? j = some va :=
          List.get?_set_eq_of_lt va hjlt
        rw [List.get?_eq_getElem?] at hset
        simp [Chunk.get, hj, hset]
      · exact Chunk.stained_contains_of_mem _ s1 fl hs1 hm1 hbfl
      · exact Chunk.stained_contains_of_mem _ t1 sl ht1 hn1 hbsl
  · intro hc hmiss
    rcases hmiss with hm | hm
    · have hsw : WorldGrid.swap (E := E) w a b
          = (w, some (.SwapOutOfBounds fc sc)) := by
        simp [WorldGrid.swap, hfc, hfl, hsc, hsl, hc, hm]
      exact hsw
    · cases hfa : w.findChunk fc with
      | none => simp [WorldGrid.swap, hfc, hfl, hsc, hsl, hc, hfa]
      | some ca => simp [WorldGrid.swap, hfc, hfl, hsc, hsl, hc, hfa, hm]

/-- C5 witness: the theorem applied to a concrete two-chunk 2×2 world for the
cross-chunk success case, and to a one-chunk world for the missing-chunk
failure case. -/
theorem c5_witness :
    ((WorldGrid.swap (E := Unit)
        (WorldGrid.mk (N := 2) [(⟨0, 0⟩, Chunk.default 2 (10 : Int)),
          (⟨1, 0⟩, Chunk.default 2 20)]) ⟨0, 0⟩ ⟨2, 1⟩).2 = none ∧
     WorldGrid.get (E := Unit)
        (WorldGrid.swap (E := Unit)
          (WorldGrid.mk (N := 2) [(⟨0, 0⟩, Chunk.default 2 (10 : Int)),
            (⟨1, 0⟩, Chunk.default 2 20)]) ⟨0, 0⟩ ⟨2, 1⟩).1 ⟨0, 0⟩ = .ok 20 ∧
     WorldGrid.get (E := Unit)
        (WorldGrid.swap (E := Unit)
          (WorldGrid.mk (N := 2) [(⟨0, 0⟩, Chunk.default 2 (10 : Int)),
            (⟨1, 0⟩, Chunk.default 2 20)]) ⟨0, 0⟩ ⟨2, 1⟩).1 ⟨2, 1⟩ = .ok 10 ∧
     (∃ ch, (WorldGrid.swap (E := Unit)
          (WorldGrid.mk (N := 2) [(⟨0, 0⟩, Chunk.default 2 (10 : Int)),
            (⟨1, 0⟩, Chunk.default 2 20)]) ⟨0, 0⟩ ⟨2, 1⟩).1.findChunk ⟨0, 0⟩
          = some ch ∧ ch.stained.contains ⟨0, 0⟩ = true) ∧
     (∃ ch, (WorldGrid.swap (E := Unit)
          (WorldGrid.mk (N := 2) [(⟨0, 0⟩, Chunk.default 2 (10 : Int)),
            (⟨1, 0⟩, Chunk.default 2 20)]) ⟨0, 0⟩ ⟨2, 1⟩).1.findChunk ⟨1, 0⟩
          = some ch ∧ ch.stained.contains ⟨0, 1⟩ = true)) ∧
    WorldGrid.swap (E := Unit)
        (WorldGrid.mk (N := 2) [(⟨0, 0⟩, Chunk.default 2 (10 : Int))])
        ⟨0, 0⟩ ⟨2, 1⟩
      = (WorldGrid.mk (N := 2) [(⟨0, 0⟩, Chunk.default 2 (10 : Int))],
         some (.SwapOutOfBounds ⟨0, 0⟩ ⟨1, 0⟩)) :=
  ⟨(c5_world_grid_swap Int Unit 2
      (WorldGrid.mk [(⟨0, 0⟩, Chunk.default 2 (10 : Int)),
        (⟨1, 0⟩, Chunk.default 2 20)])
      ⟨0, 0⟩ ⟨2, 1⟩ ⟨0, 0⟩ ⟨0, 0⟩ ⟨1, 0⟩ ⟨0, 1⟩ 10 20
      (by decide) (by decide)).1 (by decide) (by decide),
   (c5_world_grid_swap Int Unit 2
      (WorldGrid.mk [(⟨0, 0⟩, Chunk.default 2 (10 : Int))])
      ⟨0, 0⟩ ⟨2, 1⟩ ⟨0, 0⟩ ⟨0, 0⟩ ⟨1, 0⟩ ⟨0, 1⟩ 10 20
      (by decide) (by decide)).2 (by decide) (Or.inr (by decide))⟩

/-- C1: each frame adds `tick_rate * elapsed` to the accumulator; at most one
discrete step runs per frame (the flag), exactly when the updated
accumulator is ≥ 1, and afterwards the accumulator is clamped into `[0, 1]`;
with tick rate 2.0 and elapsed 0.3 s over 4 frames, exactly 2 steps run. -/
theorem c1_scheduler_accumulator (rate dt acc : ℚ) :
    ((frameAcc rate dt acc).1 = true ↔ acc + rate * dt ≥ 1) ∧
    ((frameAcc rate dt acc).1 = true →
      0 ≤ (frameAcc rate dt acc).2 ∧ (frameAcc rate dt acc).2 ≤ 1) ∧
    (runFrames 2 (3 / 10) 4 0).1 = 2 := by
  refine ⟨?_, ?_, ?_⟩
  · unfold frameAcc
    by_cases h : acc + rate * dt ≥ 1 <;> simp [h]
  · intro h
    unfold frameAcc at h ⊢
    by_cases hge : acc + rate * dt ≥ 1
    · simp only [hge, if_pos]
      exact ⟨le_min (le_max_right _ _) zero_le_one, min_le_right _ _⟩
    · simp [hge] at h
  · norm_num [runFrames, frameAcc]

/-- C1 witness: the theorem applied at the scenario's second frame
(accumulator 0.6, elapsed 0.3, rate 2.0). -/
theorem c1_witness :
    (frameAcc 2 (3 / 10) (6 / 10)).1 = true ∧
    0 ≤ (frameAcc 2 (3 / 10) (6 / 10)).2 ∧
    (frameAcc 2 (3 / 10) (6 / 10)).2 ≤ 1 :=
  ⟨(c1_scheduler_accumulator 2 (3 / 10) (6 / 10)).1.mpr (by norm_num),
   (c1_scheduler_accumulator 2 (3 / 10) (6 / 10)).2.1
     ((c1_scheduler_accumulator 2 (3 / 10) (6 / 10)).1.mpr (by norm_num))⟩

/-- C2: in the parallel phase, a point of the cleared stain whose translated
`range` has both corners inside the chunk area is evaluated by the chunk's
local `tick` (re-staining the point exactly when it returns `Unstable`, and
never touching the deferred channel), while a point whose range escapes the
chunk area is not evaluated (the state is returned unchanged for every tick
function) and its world coordinate is appended to the deferred channel; the
corner check coincides with full containment of the translated range for
proper (min ≤ max) ranges. -/
theorem c2_parallel_point_dispatch (α E : Type) [DecidableEq E] (N : Int)
    (ts : TickSpec α E N) (coords point : IVec2) (st : ParState α E N)
    (cell : α) (hcell : Chunk.get (E := E) st.chunk point = .ok cell) :
    (((Chunk.area N).containsB (translate_rect (ts.range cell) point).min
        && (Chunk.area N).containsB (translate_rect (ts.range cell) point).max)
        = true →
      ∃ st', processPoint ts coords st point = some st' ∧
        st'.deferred = st.deferred ∧
        st'.chunk = (if (ts.tickChunk point st.chunk).1 = .ok .Unstable
          then (ts.tickChunk point st.chunk).2.stain_point point
          else (ts.tickChunk point st.chunk).2)) ∧
    (((Chunk.area N).containsB (translate_rect (ts.range cell) point).min
        && (Chunk.area N).containsB (translate_rect (ts.range cell) point).max)
        = false →
      processPoint ts coords st point
        = some { st with deferred :=
            st.deferred ++ [ChunkCoords.local_to_world N coords point] }) ∧
    ((ts.range cell).min.x ≤ (ts.range cell).max.x →
     (ts.range cell).min.y ≤ (ts.range cell).max.y →
      (((Chunk.area N).containsB (translate_rect (ts.range cell) point).min
          && (Chunk.area N).containsB
            (translate_rect (ts.range cell) point).max) = true
        ↔ ∀ q, rect_contains_inclusive
            (translate_rect (ts.range cell) point) q = true →
            (Chunk.area N).containsB q = true)) := by
  refine ⟨?_, ?_, ?_⟩
  · intro hin
    rcases htick : (ts.tickChunk point st.chunk).1 with e | s
    · refine ⟨⟨(ts.tickChunk point st.chunk).2, st.deferred,
          st.errors ++ [(ChunkCoords.local_to_world N coords point, e)]⟩,
        by simp [processPoint, hcell, hin, htick], rfl, by simp [htick]⟩
    · cases s
      · refine ⟨⟨(ts.tickChunk point st.chunk).2, st.deferred, st.errors⟩,
          by simp [processPoint, hcell, hin, htick], rfl, by simp [htick]⟩
      · refine ⟨⟨(ts.tickChunk point st.chunk).2.stain_point point,
            st.deferred, st.errors⟩,
          by simp [processPoint, hcell, hin, htick], rfl, by simp [htick]⟩
  · intro hout
    simp [processPoint, hcell, hout]
  · intro hx hy
    constructor
    · intro hc q hq
      simp [IRect.containsB, translate_rect, IVec2.add, Chunk.area,
        rect_contains_inclusive] at hc hq ⊢
      omega
    · intro hall
      have h1 := hall (translate_rect (ts.range cell) point).min
      have h2 := hall (translate_rect (ts.range cell) point).max
      simp [IRect.containsB, translate_rect, IVec2.add, Chunk.area,
        rect_contains_inclusive] at h1 h2 ⊢
      omega

theorem Chunk.stain_data (c : Chunk α N) (r : IRect) :
    (c.stain r).data = c.data := by
  unfold Chunk.stain
  cases c.stainOpt <;> rfl

theorem Chunk.index_lt_volume (N : Int) (p : IVec2) (hN : 1 ≤ N)
    (hb : 0 ≤ p.x ∧ p.x ≤ N - 1 ∧ 0 ≤ p.y ∧ p.y ≤ N - 1) :
    (N * p.y + p.x).toNat < Chunk.volume N := by
  obtain ⟨n, rfl⟩ := Int.eq_ofNat_of_zero_le (by omega : (0 : Int) ≤ N)
  have h1 : (n : Int) * p.y + p.x < n * n := by nlinarith [hb.1, hb.2.1, hb.2.2.1, hb.2.2.2]
  have h2 : 0 ≤ (n : Int) * p.y + p.x := by nlinarith [hb.1, hb.2.2.1]
  have h3 : Chunk.volume (n : Int) = n * n := by simp [Chunk.volume]
  omega

theorem Chunk.get_ok_of_bounds (c : Chunk α N) (p : IVec2) (hN : 1 ≤ N)
    (hb : 0 ≤ p.x ∧ p.x ≤ N - 1 ∧ 0 ≤ p.y ∧ p.y ≤ N - 1)
    (hlen : c.data.length = Chunk.volume N) :
    ∃ v, Chunk.get (E := E) c p = .ok v := by
  have hidx : Chunk.index N p = some (N * p.y + p.x).toNat := by
    simp [Chunk.index, Chunk.area, IRect.containsB]
    omega
  have hlt : (N * p.y + p.x).toNat < c.data.length := by
    rw [hlen]; exact Chunk.index_lt_volume N p hN hb
  cases hg : c.data.get? (N * p.y + p.x).toNat with
  | none =>
    have := List.get?_eq_none.mp hg
    omega
  | some v =>
    rw [List.get?_eq_getElem?] at hg
    exact ⟨v, by simp [Chunk.get, hidx, hg]⟩

theorem mem_intRange (a b v : Int) (h : v ∈ intRange a b) : a ≤ v ∧ v ≤ b := by
  simp [intRange] at h
  obtain ⟨i, hi, rfl⟩ := h
  omega

theorem mem_rectPoints (r : IRect) (q : IVec2) (h : q ∈ rectPoints r) :
    r.min.x ≤ q.x ∧ q.x ≤ r.max.x ∧ r.min.y ≤ q.y ∧ q.y ≤ r.max.y := by
  simp [rectPoints] at h
  obtain ⟨y, hy, x, hx, rfl⟩ := h
  obtain ⟨hy1, hy2⟩ := mem_intRange _ _ _ hy
  obtain ⟨hx1, hx2⟩ := mem_intRange _ _ _ hx
  exact ⟨hx1, hx2, hy1, hy2⟩

theorem stained_choices_bounds (c : Chunk α N) (hN : 1 ≤ N)
    (hok : ∀ s, c.stainOpt = some s → 0 ≤ s.max.x ∧ 0 ≤ s.max.y) :
    ∀ q ∈ c.stained.choices,
      0 ≤ q.x ∧ q.x ≤ N - 1 ∧ 0 ≤ q.y ∧ q.y ≤ N - 1 := by
  intro q hq
  cases hcs : c.stainOpt with
  | none => simp [Chunk.stained, hcs, Area.choices] at hq
  | some s =>
    obtain ⟨h1, h2⟩ := hok s hcs
    simp [Chunk.stained, hcs, Area.ofRect, Area.choices] at hq
    have hm := mem_rectPoints _ _ hq
    simp [IRect.intersect, IVec2.vmax, IVec2.vmin, Chunk.area] at hm
    omega

theorem world_local_roundtrip (N : Int) (cc q : IVec2) (hN : 0 < N)
    (hq : 0 ≤ q.x ∧ q.x ≤ N - 1 ∧ 0 ≤ q.y ∧ q.y ≤ N - 1) :
    ChunkCoords.world_to_chunk_and_local N (ChunkCoords.local_to_world N cc q)
      = (cc, q) := by
  have hdiv : ∀ c v : Int, 0 ≤ v → v < N → (N * c + v) / N = c := by
    intro c v h1 h2
    have h : N * c + v = v + N * c := by ring
    rw [h, Int.add_mul_ediv_left v c (by omega : N ≠ 0),
      Int.ediv_eq_zero_of_lt h1 h2]
    ring
  have hmod : ∀ c v : Int, 0 ≤ v → v < N → (N * c + v) % N = v := by
    intro c v h1 h2
    have h : N * c + v = v + c * N := by ring
    rw [h, Int.add_mul_emod_self, Int.emod_eq_of_lt h1 h2]
  obtain ⟨hx0, hx1, hy0, hy1⟩ := hq
  have e1 := hdiv cc.x q.x hx0 (by omega)
  have e2 := hdiv cc.y q.y hy0 (by omega)
  have e3 := hmod cc.x q.x hx0 (by omega)
  have e4 := hmod cc.y q.y hy0 (by omega)
  unfold ChunkCoords.world_to_chunk_and_local ChunkCoords.local_to_world
    ChunkCoords.offset
  simp [IVec2.divEuclid, IVec2.remEuclid, IVec2.add, IVec2.smul, IVec2.splat,
    Prod.ext_iff, e1, e2, e3, e4]

theorem processPoint_step (ts : TickSpec α E N) (coords point : IVec2)
    (st : ParState α E N) (hN : 1 ≤ N)
    (htickC : ∀ p c, ((ts.tickChunk p c).2).data.length = c.data.length)
    (hb : 0 ≤ point.x ∧ point.x ≤ N - 1 ∧ 0 ≤ point.y ∧ point.y ≤ N - 1)
    (hlen : st.chunk.data.length = Chunk.volume N) :
    ∃ st', processPoint ts coords st point = some st' ∧
      st'.chunk.data.length = Chunk.volume N ∧
      (st'.deferred = st.deferred ∨
        st'.deferred = st.deferred
          ++ [ChunkCoords.local_to_world N coords point]) := by
  obtain ⟨v, hv⟩ := Chunk.get_ok_of_bounds (E := E) st.chunk point hN hb hlen
  unfold processPoint
  rw [hv]
  by_cases hin : ((Chunk.area N).containsB
      (translate_rect (ts.range v) point).min
    && (Chunk.area N).containsB (translate_rect (ts.range v) point).max) = true
  · rcases htick : (ts.tickChunk point st.chunk).1 with e | s
    · exact ⟨⟨(ts.tickChunk point st.chunk).2, st.deferred,
          st.errors ++ [(ChunkCoords.local_to_world N coords point, e)]⟩,
        by simp [hin, htick], by simp [htickC, hlen], Or.inl rfl⟩
    · cases s
      · exact ⟨⟨(ts.tickChunk point st.chunk).2, st.deferred, st.errors⟩,
          by simp [hin, htick], by simp [htickC, hlen], Or.inl rfl⟩
      · exact ⟨⟨(ts.tickChunk point st.chunk).2.stain_point point,
            st.deferred, st.errors⟩,
          by simp [hin, htick],
          by simp [Chunk.stain_point_data, htickC, hlen], Or.inl rfl⟩
  · rw [Bool.not_eq_true] at hin
    exact ⟨⟨st.chunk,
        st.deferred ++ [ChunkCoords.local_to_world N coords point], st.errors⟩,
      by simp [hin], by simpa using hlen, Or.inr rfl⟩

theorem parFoldM (ts : TickSpec α E N) (coords : IVec2) (hN : 1 ≤ N)
    (htickC : ∀ p c, ((ts.tickChunk p c).2).data.length = c.data.length) :
    ∀ (order : List IVec2),
      (∀ q ∈ order, 0 ≤ q.x ∧ q.x ≤ N - 1 ∧ 0 ≤ q.y ∧ q.y ≤ N - 1) →
      ∀ st : ParState α E N, st.chunk.data.length = Chunk.volume N →
      ∃ st', List.foldlM (processPoint ts coords) st order = some st' ∧
        st'.chunk.data.length = Chunk.volume N ∧
        ∀ d ∈ st'.deferred, d ∈ st.deferred ∨
          ∃ q, q ∈ order ∧ d = ChunkCoords.local_to_world N coords q := by
  intro order
  induction order with
  | nil =>
    intro _ st hlen
    exact ⟨st, rfl, hlen, fun d hd => Or.inl hd⟩
  | cons q rest ih =>
    intro hq st hlen
    obtain ⟨st1, h1, hlen1, hdef1⟩ :=
      processPoint_step ts coords q st hN htickC (hq q (by simp)) hlen
    obtain ⟨st', h', hlen', hdef'⟩ :=
      ih (fun p hp => hq p (by simp [hp])) st1 hlen1
    refine ⟨st', ?_, hlen', ?_⟩
    · simp [List.foldlM, h1]
      exact h'
    · intro d hd
      rcases hdef' d hd with hmem | ⟨p, hp, rfl⟩
      · rcases hdef1 with he | he
        · rw [he] at hmem
          exact Or.inl hmem
        · rw [he] at hmem
          rcases List.mem_append.mp hmem with hm | hm
          · exact Or.inl hm
          · simp at hm
            exact Or.inr ⟨q, by simp, by rw [hm]⟩
      · exact Or.inr ⟨p, by simp [hp], rfl⟩

theorem parallelChunk_some (ts : TickSpec α E N)
    (shuffleOne : List IVec2 → List IVec2) (coords : IVec2) (c : Chunk α N)
    (hN : 1 ≤ N)
    (htickC : ∀ p c, ((ts.tickChunk p c).2).data.length = c.data.length)
    (hshuffle : ∀ l, (shuffleOne l).Perm l)
    (hok : ∀ s, c.stainOpt = some s → 0 ≤ s.max.x ∧ 0 ≤ s.max.y)
    (hlen : c.data.length = Chunk.volume N) :
    ∃ out, parallelChunk ts shuffleOne coords c = some out ∧
      out.chunk.data.length = Chunk.volume N ∧
      ∀ d ∈ out.deferred, ∃ q,
        (0 ≤ q.x ∧ q.x ≤ N - 1 ∧ 0 ≤ q.y ∧ q.y ≤ N - 1) ∧
        d = ChunkCoords.local_to_world N coords q := by
  have horder : ∀ q ∈ c.stained.apply_randomly shuffleOne,
      0 ≤ q.x ∧ q.x ≤ N - 1 ∧ 0 ≤ q.y ∧ q.y ≤ N - 1 := by
    intro q hq
    exact stained_choices_bounds c hN hok q
      ((hshuffle c.stained.choices).mem_iff.mp hq)
  obtain ⟨st', hfold, hlen', hdef'⟩ :=
    parFoldM ts coords hN htickC (c.stained.apply_randomly shuffleOne) horder
      (ParState.mk c.clear_stain [] []) (by simpa [Chunk.clear_stain] using hlen)
  unfold parallelChunk
  simp only [hfold]
  refine ⟨_, rfl, hlen', ?_⟩
  intro d hd
  rcases hdef' d hd with hmem | ⟨q, hq, rfl⟩
  · simp at hmem
  · exact ⟨q, horder q hq, rfl⟩

theorem WorldGrid.findChunk_update_shape (w : WorldGrid α N) (k k2 : IVec2)
    (f : Chunk α N → Chunk α N) (hf : ∀ c, (f c).data.length = c.data.length) :
    ((w.updateChunk k f).findChunk k2).map (fun c => c.data.length)
      = (w.findChunk k2).map (fun c => c.data.length) := by
  by_cases h : k2 = k
  · subst h
    rw [WorldGrid.findChunk_update_self]
    cases w.findChunk k2 <;> simp [hf]
  · rw [WorldGrid.findChunk_update_ne _ _ _ h]

theorem foldl_shape {β : Type} (g : WorldGrid α N → β → WorldGrid α N)
    (k : IVec2)
    (hg : ∀ w b, (((g w b).findChunk k).map (fun c => c.data.length))
      = ((w.findChunk k).map (fun c => c.data.length))) :
    ∀ (l : List β) (w : WorldGrid α N),
      (((l.foldl g w).findChunk k).map (fun c => c.data.length))
        = ((w.findChunk k).map (fun c => c.data.length)) := by
  intro l
  induction l with
  | nil => intro w; rfl
  | cons b rest ih => intro w; rw [List.foldl_cons, ih, hg]

theorem WorldGrid.stain_shape (w : WorldGrid α N) (r : IRect) (k : IVec2) :
    ((w.stain r).findChunk k).map (fun c => c.data.length)
      = (w.findChunk k).map (fun c => c.data.length) := by
  unfold WorldGrid.stain
  refine foldl_shape _ k ?_ _ w
  intro w1 cx
  refine foldl_shape _ k ?_ _ w1
  intro w2 cy
  exact WorldGrid.findChunk_update_shape w2 _ k _
    (fun c => congrArg List.length (Chunk.stain_data c _))

theorem WorldGrid.stain_point_shape (w : WorldGrid α N) (p k : IVec2) :
    ((w.stain_point p).findChunk k).map (fun c => c.data.length)
      = (w.findChunk k).map (fun c => c.data.length) := by
  unfold WorldGrid.stain_point
  exact WorldGrid.findChunk_update_shape w _ k _
    (fun c => congrArg List.length (Chunk.stain_point_data c _))

theorem WorldGrid.findChunk_isSome_of_key (l : List (IVec2 × Chunk α N))
    (k : IVec2) (c : Chunk α N) (hmem : (k, c) ∈ l) :
    ∃ c2, (WorldGrid.mk l).findChunk k = some c2 ∧ (k, c2) ∈ l := by
  unfold WorldGrid.findChunk
  have hsome : (l.find? (fun kv => kv.1 = k)).isSome := by
    rw [List.find?_isSome]
    exact ⟨(k, c), hmem, by simp⟩
  obtain ⟨kv, hkv⟩ := Option.isSome_iff_exists.mp hsome
  have hpred := List.find?_some hkv
  have hmem2 := List.mem_of_find?_eq_some hkv
  simp at hpred
  refine ⟨kv.2, by simp [hkv], ?_⟩
  have heta : (k, kv.2) = kv := by
    rw [← hpred]
  exact heta ▸ hmem2

theorem serialFold (ts : TickSpec α E N) (covers : Area) (hN : 1 ≤ N)
    (htickW : ∀ p w k, (((ts.tickWorld p w).2).findChunk k).map
        (fun c => c.data.length)
      = (w.findChunk k).map (fun c => c.data.length))
    (w2ref : WorldGrid α N) :
    ∀ (dl : List IVec2)
      (acc : WorldGrid α N × List (IVec2 × PowderkegError E)),
      (∀ k, (acc.1.findChunk k).map (fun c => c.data.length)
        = (w2ref.findChunk k).map (fun c => c.data.length)) →
      (∀ d ∈ dl, ∃ cc q,
        (0 ≤ q.x ∧ q.x ≤ N - 1 ∧ 0 ≤ q.y ∧ q.y ≤ N - 1) ∧
        d = ChunkCoords.local_to_world N cc q ∧
        ∃ c, w2ref.findChunk cc = some c ∧ c.data.length = Chunk.volume N) →
      ∃ fin, List.foldlM (processDeferred ts covers) acc dl = some fin := by
  intro dl
  induction dl with
  | nil => intro acc _ _; exact ⟨acc, rfl⟩
  | cons d rest ih =>
    intro acc hshape hdl
    obtain ⟨cc, q, hq, rfl, c, hc, hclen⟩ := hdl d (by simp)
    -- the world lookup at the deferred point succeeds with a full-size chunk
    have hcl := world_local_roundtrip N cc q (by omega) hq
    have hshape_cc := hshape cc
    rw [hc] at hshape_cc
    cases hfc : acc.1.findChunk cc with
    | none => rw [hfc] at hshape_cc; simp at hshape_cc
    | some c2 =>
      rw [hfc] at hshape_cc
      simp at hshape_cc
      obtain ⟨v, hv⟩ := Chunk.get_ok_of_bounds (E := E) c2 q hN hq
        (by rw [hshape_cc]; exact hclen)
      have hget : WorldGrid.get (E := E) acc.1
          (ChunkCoords.local_to_world N cc q) = .ok v := by
        rw [WorldGrid.get_eq, hcl]
        simpa [hfc] using hv
      -- one deferred step succeeds; find the next accumulator and its shape
      have hstep : ∃ acc2,
          processDeferred ts covers acc (ChunkCoords.local_to_world N cc q)
            = some acc2 ∧
          ∀ k, (acc2.1.findChunk k).map (fun c => c.data.length)
            = (w2ref.findChunk k).map (fun c => c.data.length) := by
        unfold processDeferred
        rw [hget]
        by_cases hcov : area_contains
            (translate_rect (ts.range v) (ChunkCoords.local_to_world N cc q))
            covers = true
        · rcases htick : (ts.tickWorld (ChunkCoords.local_to_world N cc q)
              acc.1).1 with e | s
          · exact ⟨((ts.tickWorld (ChunkCoords.local_to_world N cc q) acc.1).2,
                acc.2 ++ [(ChunkCoords.local_to_world N cc q, e)]),
              by simp [hcov, htick], fun k => by
                rw [htickW]; exact hshape k⟩
          · cases s
            · exact ⟨((ts.tickWorld (ChunkCoords.local_to_world N cc q) acc.1).2,
                  acc.2),
                by simp [hcov, htick], fun k => by
                  rw [htickW]; exact hshape k⟩
            · exact ⟨(((ts.tickWorld (ChunkCoords.local_to_world N cc q)
                      acc.1).2).stain_point (ChunkCoords.local_to_world N cc q),
                  acc.2),
                by simp [hcov, htick], fun k => by
                  rw [WorldGrid.stain_point_shape, htickW]; exact hshape k⟩
        · rw [Bool.not_eq_true] at hcov
          exact ⟨acc, by simp [hcov], hshape⟩
      obtain ⟨acc2, hacc2, hshape2⟩ := hstep
      obtain ⟨fin, hfin⟩ := ih acc2 hshape2 (fun d hd => hdl d (by simp [hd]))
      exact ⟨fin, by simp [List.foldlM, hacc2, hfin]⟩

theorem mapM_parallel (ts : TickSpec α E N)
    (shuffle : IVec2 → List IVec2 → List IVec2) (hN : 1 ≤ N)
    (htickC : ∀ p c, ((ts.tickChunk p c).2).data.length = c.data.length)
    (hshuffle : ∀ cc l, (shuffle cc l).Perm l) :
    ∀ (world : List (IVec2 × Chunk α N)),
      (∀ kv ∈ world,
        (∀ s, kv.2.stainOpt = some s → 0 ≤ s.max.x ∧ 0 ≤ s.max.y) ∧
        kv.2.data.length = Chunk.volume N) →
      ∃ outs, world.mapM (fun kv =>
          (parallelChunk ts (shuffle kv.1) kv.1 kv.2).map (fun o => (kv.1, o)))
        = some outs ∧
        ∀ co ∈ outs, co.2.chunk.data.length = Chunk.volume N ∧
          ∀ d ∈ co.2.deferred, ∃ q,
            (0 ≤ q.x ∧ q.x ≤ N - 1 ∧ 0 ≤ q.y ∧ q.y ≤ N - 1) ∧
            d = ChunkCoords.local_to_world N co.1 q := by
  intro world
  induction world with
  | nil => intro _; exact ⟨[], rfl, by simp⟩
  | cons kv rest ih =>
    intro hw
    obtain ⟨out, hout, hlen, hdef⟩ :=
      parallelChunk_some ts (shuffle kv.1) kv.1 kv.2 hN htickC
        (hshuffle kv.1) (hw kv (by simp)).1 (hw kv (by simp)).2
    obtain ⟨outs, houts, hfacts⟩ := ih (fun kv2 h2 => hw kv2 (by simp [h2]))
    refine ⟨(kv.1, out) :: outs, ?_, ?_⟩
    · rw [List.mapM_cons, hout, houts]
      rfl
    · intro co hco
      rcases List.mem_cons.mp hco with rfl | hmem
      · exact ⟨hlen, hdef⟩
      · exact hfacts co hmem

/-- C6 amended: provided every loaded chunk's dirty rectangle has a
componentwise nonnegative max corner (the invariant maintained by all
engine-internal staining) and full-size data, and the cell's `tick` respects
the `Grid` contract (it preserves chunk data lengths and held chunks), the
discrete step performs every `at`/`at_mut` access on a valid point and never
panics. -/
theorem c6_step_no_panic (α E : Type) (N : Int) (hN : 1 ≤ N)
    (ts : TickSpec α E N) (shuffle : IVec2 → List IVec2 → List IVec2)
    (hshuffle : ∀ cc l, (shuffle cc l).Perm l)
    (htickC : ∀ p c, ((ts.tickChunk p c).2).data.length = c.data.length)
    (htickW : ∀ p w k, (((ts.tickWorld p w).2).findChunk k).map
        (fun c => c.data.length)
      = (w.findChunk k).map (fun c => c.data.length))
    (world : List (IVec2 × Chunk α N))
    (hstain : ∀ kv ∈ world, ∀ s, kv.2.stainOpt = some s →
      0 ≤ s.max.x ∧ 0 ≤ s.max.y)
    (hdata : ∀ kv ∈ world, kv.2.data.length = Chunk.volume N) :
    (discreteStep ts shuffle world).isSome = true := by
  obtain ⟨outs, houts, hfacts⟩ := mapM_parallel ts shuffle hN htickC hshuffle
    world (fun kv h => ⟨hstain kv h, hdata kv h⟩)
  have hshape2 : ∀ k,
      ((((outs.flatMap (fun co => co.2.boundary)).foldl WorldGrid.stain
          ⟨outs.map (fun co => (co.1, co.2.chunk))⟩).findChunk k).map
        (fun c => c.data.length))
      = (((⟨outs.map (fun co => (co.1, co.2.chunk))⟩ :
          WorldGrid α N).findChunk k).map (fun c => c.data.length)) :=
    fun k => foldl_shape WorldGrid.stain k
      (fun w r => WorldGrid.stain_shape w r k) _ _
  have hdl : ∀ d ∈ outs.flatMap (fun co => co.2.deferred), ∃ cc q,
      (0 ≤ q.x ∧ q.x ≤ N - 1 ∧ 0 ≤ q.y ∧ q.y ≤ N - 1) ∧
      d = ChunkCoords.local_to_world N cc q ∧
      ∃ c, ((outs.flatMap (fun co => co.2.boundary)).foldl WorldGrid.stain
          ⟨outs.map (fun co => (co.1, co.2.chunk))⟩).findChunk cc = some c ∧
        c.data.length = Chunk.volume N := by
    intro d hd
    obtain ⟨co, hco, hdco⟩ := List.mem_flatMap.mp hd
    obtain ⟨q, hq, rfl⟩ := (hfacts co hco).2 d hdco
    refine ⟨co.1, q, hq, rfl, ?_⟩
    have hmem1 : (co.1, co.2.chunk)
        ∈ outs.map (fun co => (co.1, co.2.chunk)) :=
      List.mem_map.mpr ⟨co, hco, rfl⟩
    obtain ⟨c2, hfind1, hmem2⟩ :=
      WorldGrid.findChunk_isSome_of_key _ co.1 co.2.chunk hmem1
    have hc2len : c2.data.length = Chunk.volume N := by
      obtain ⟨co2, hco2, heq⟩ := List.mem_map.mp hmem2
      have hl := (hfacts co2 hco2).1
      rw [show co2.2.chunk = c2 from congrArg Prod.snd heq] at hl
      exact hl
    have hsh := hshape2 co.1
    rw [hfind1] at hsh
    cases hfc2 : ((outs.flatMap (fun co => co.2.boundary)).foldl
        WorldGrid.stain
        ⟨outs.map (fun co => (co.1, co.2.chunk))⟩).findChunk co.1 with
    | none => rw [hfc2] at hsh; simp at hsh
    | some c3 =>
      rw [hfc2] at hsh
      simp at hsh
      exact ⟨c3, rfl, by rw [hsh]; exact hc2len⟩
  obtain ⟨fin, hfin⟩ := serialFold ts
    ((outs.flatMap (fun co => co.2.boundary)).foldl WorldGrid.stain
      ⟨outs.map (fun co => (co.1, co.2.chunk))⟩).covers hN htickW
    ((outs.flatMap (fun co => co.2.boundary)).foldl WorldGrid.stain
      ⟨outs.map (fun co => (co.1, co.2.chunk))⟩)
    (outs.flatMap (fun co => co.2.deferred))
    (((outs.flatMap (fun co => co.2.boundary)).foldl WorldGrid.stain
      ⟨outs.map (fun co => (co.1, co.2.chunk))⟩), [])
    (fun k => rfl) hdl
  unfold discreteStep
  rw [houts]
  simp [Option.bind, hfin]

/-- C2 witness: the theorem applied at a concrete in-range point of a default
4×4 chunk. -/
theorem c2_witness :
    ∃ st', processPoint upSpec ⟨0, 0⟩ ⟨Chunk.default 4 0, [], []⟩ ⟨1, 1⟩
        = some st' ∧
      st'.deferred
        = (⟨Chunk.default 4 0, [], []⟩ : ParState Int Unit 4).deferred ∧
      st'.chunk = (if (upSpec.tickChunk ⟨1, 1⟩ (Chunk.default 4 0)).1
          = .ok .Unstable
        then (upSpec.tickChunk ⟨1, 1⟩ (Chunk.default 4 0)).2.stain_point ⟨1, 1⟩
        else (upSpec.tickChunk ⟨1, 1⟩ (Chunk.default 4 0)).2) :=
  (c2_parallel_point_dispatch Int Unit 4 upSpec ⟨0, 0⟩ ⟨1, 1⟩
    ⟨Chunk.default 4 0, [], []⟩ 0 (by decide)).1 (by decide)

/-- C3 amended: a deferred point whose translated range is not fully covered
by `world_covers` in the serial phase is skipped without evaluating `tick`:
the accumulated world and error log are returned exactly unchanged (for
every tick function), so it produces zero errors; but since the stain was
cleared at the start of the step and the skip does not re-stain, the point
does not remain in its chunk's dirty region. -/
theorem c3_uncovered_deferred_skipped (α E : Type) (N : Int)
    (ts : TickSpec α E N) (covers : Area)
    (acc : WorldGrid α N × List (IVec2 × PowderkegError E)) (point : IVec2)
    (cell : α)
    (hcell : WorldGrid.get (E := E) acc.1 point = .ok cell)
    (hcov : area_contains (translate_rect (ts.range cell) point) covers
      = false) :
    processDeferred ts covers acc point = some acc := by
  unfold processDeferred
  rw [hcell]
  simp [hcov]

/-- C3 witness: the skip theorem applied to a one-chunk world and the point
(0,3) whose range extends above the only loaded chunk. -/
theorem c3_witness :
    processDeferred upSpec
      ((WorldGrid.mk (N := 4) [(⟨0, 0⟩, Chunk.default 4 (0 : Int))]).covers)
      (WorldGrid.mk [(⟨0, 0⟩, Chunk.default 4 (0 : Int))], []) ⟨0, 3⟩
      = some (WorldGrid.mk [(⟨0, 0⟩, Chunk.default 4 (0 : Int))], []) :=
  c3_uncovered_deferred_skipped Int Unit 4 upSpec
    ((WorldGrid.mk (N := 4) [(⟨0, 0⟩, Chunk.default 4 (0 : Int))]).covers)
    (WorldGrid.mk [(⟨0, 0⟩, Chunk.default 4 (0 : Int))], []) ⟨0, 3⟩ 0
    (by decide) (by decide)

/-- C3 counterexample: one 4×4 chunk with a single stained cell at (0,3)
whose range extends one cell above the chunk; the discrete step defers it,
the serial phase skips it (no chunk is loaded above) and zero errors are
produced — but afterwards the point is NOT in the chunk's dirty region (the
stain was cleared and never restored), contradicting the claim that it
remains included and is retried. -/
theorem c3_counterexample :
    (discreteStep upSpec (fun _ l => l)
      [(⟨0, 0⟩,
        ((Chunk.default 4 (0 : Int)).clear_stain.stain_point ⟨0, 3⟩))]).map
      (fun out => (out.errors,
        (out.world.findChunk ⟨0, 0⟩).map
          (fun ch => ch.stained.contains ⟨0, 3⟩)))
      = some ([], some false) := by decide

/-- C6 witness: the no-panic theorem applied to a concrete one-chunk world
with the always-stable one-up cell behaviour. -/
theorem c6_witness :
    (discreteStep upSpec (fun _ l => l)
      [(⟨0, 0⟩, Chunk.default 4 (0 : Int))]).isSome = true :=
  c6_step_no_panic Int Unit 4 (by norm_num) upSpec (fun _ l => l)
    (fun _ l => List.Perm.refl l) (fun _ _ => rfl) (fun _ _ _ => rfl)
    [(⟨0, 0⟩, Chunk.default 4 (0 : Int))]
    (by
      intro kv hkv s hs
      simp at hkv
      subst hkv
      have h2 : (some (Chunk.area 4) : Option IRect) = some s := hs
      obtain rfl := Option.some_inj.mp h2
      simp [Chunk.area])
    (by
      intro kv hkv
      simp at hkv
      subst hkv
      simp [Chunk.default])

/-- C6 counterexample: a chunk whose accumulated stain lies entirely
below-left of its bounds (reachable through the public `clear_stain`/`stain`
API, as in the C4 counterexample) makes the parallel phase call `chunk.at`
on the out-of-bounds point (-3,-3): the discrete step hits the panicking
accessor on an invalid point, i.e. a data-dependent panic. -/
theorem c6_counterexample :
    (discreteStep upSpec (fun _ l => l)
      [(⟨0, 0⟩,
        (Chunk.default 4 (0 : Int)).clear_stain.stain
          ⟨⟨-5, -5⟩, ⟨-3, -3⟩⟩)]).isSome = false := by decide
